import Mathlib

/-!
# Cluster-module reconciliation: a shallow embedding

This file embeds the cluster-module reconciliation loop of the
`cluster-api-provider-vsphere` controllers package: target discovery
(`fetchMachineOwnerObjects`), the reconciliation engine (`Reconcile`), the
association-record store (`ClusterModule` entries in the cluster spec) and
the availability signal (`ClusterModulesAvailableCondition`).

The reconciler implementation file is not part of the provided sources (only
its test file is), so the engine and discovery are modelled from the
specification's algorithm (spec §4.1–§4.2), with the data shapes taken from
the test file (`ClusterModule` carries `ControlPlane`, `TargetObjectName`,
`ModuleUUID`; the control-plane map key is `appendKCPKey name`).
-/

namespace ClusterModules

/-- A target descriptor (`clustermodule.Wrapper`): a kind-tagged view of an
object that may receive a cluster module — its name plus whether it is the
control plane. -/
structure Wrapper where
  name : String
  controlPlane : Bool
deriving DecidableEq, Repr

/-- An association record (`infrav1.ClusterModule`), as stored in
`VSphereCluster.Spec.ClusterModules`: the target kind flag, the target
object's name, and the module UUID assigned by the external service. -/
structure ClusterModule where
  controlPlane : Bool
  targetObjectName : String
  moduleUUID : String
deriving DecidableEq, Repr

/-- An error returned by the grouping service's `Create`: either the
distinguished incompatible-owner kind or a generic error, each carrying a
message. -/
inductive CMError where
  | incompatibleOwner (reason : String)
  | generic (msg : String)
deriving DecidableEq, Repr

/-- Modelled from the spec: the external Grouping Service interface
(`Exists`, `Create`, `Remove`), represented as response oracles.  `create`
returns the pair `(groupingID, error?)` exactly as the Go service does;
`removeResult` is `none` on success and `some msg` on failure.  The spec
leaves the behaviour on an `Exists` transport error unspecified, so
`doesExist` is modelled as the boolean answer alone. -/
structure CMService where
  doesExist : Wrapper → String → Bool
  create : Wrapper → String × Option CMError
  removeResult : String → Option String

/-- One call made against the grouping service during a pass (recorded so
that call-count properties can be stated). -/
inductive SvcCall where
  | createCall (w : Wrapper)
  | existsCall (w : Wrapper) (id : String)
  | removeCall (id : String)
deriving DecidableEq, Repr

/-- Modelled from the spec: the reserved suffix used to build a
control-plane lookup key from the resource name ("control-plane key =
transform(name)", a reserved suffix transform). -/
def kcpKeySuffix : String := "-kcp"

/-- Modelled from the spec: `appendKCPKey` — the control-plane key
transform, appending the reserved suffix to the resource name so a
control-plane target never collides with a same-named worker pool. -/
def appendKCPKey (name : String) : String := name ++ kcpKeySuffix

/-- The lookup key a target descriptor uses in the live map: the transform
of the name for control-plane targets, the bare name for worker pools. -/
def wrapperKey (w : Wrapper) : String :=
  if w.controlPlane then appendKCPKey w.name else w.name

/-- The lookup key derived from an association record, matching
`wrapperKey` of the record's target. -/
def moduleKey (m : ClusterModule) : String :=
  if m.controlPlane then appendKCPKey m.targetObjectName else m.targetObjectName

/-- First-match lookup of a key in the live target map (represented as an
ordered association list with unique keys). -/
def lookupLive (live : List (String × Wrapper)) (k : String) : Option Wrapper :=
  match live with
  | [] => none
  | (k', w) :: rest => if k' = k then some w else lookupLive rest k

/-- The keys of the live target map. -/
def liveKeys (live : List (String × Wrapper)) : List String :=
  live.map Prod.fst

/-- Result of step 2 of the pass: records retained so far, keys already
associated, accumulated fatal error messages, and the service calls made. -/
structure RecordsStep where
  retained : List ClusterModule
  associated : List String
  errs : List String
  calls : List SvcCall
deriving DecidableEq, Repr

/-- Modelled from the spec: step 2 of `Reconcile` — walk the existing
association records; a record whose key is no longer live has its module
removed (kept, with an accumulated fatal error, if removal fails); a record
whose key is live is verified via `Exists`: retained and marked associated
when present, silently dropped when stale. -/
def processRecords (svc : CMService) (live : List (String × Wrapper)) :
    List ClusterModule → RecordsStep
  | [] => ⟨[], [], [], []⟩
  | m :: ms =>
    let rest := processRecords svc live ms
    match lookupLive live (moduleKey m) with
    | none =>
      match svc.removeResult m.moduleUUID with
      | none =>
        { rest with calls := .removeCall m.moduleUUID :: rest.calls }
      | some e =>
        { rest with
            retained := m :: rest.retained
            errs := e :: rest.errs
            calls := .removeCall m.moduleUUID :: rest.calls }
    | some w =>
      match svc.doesExist w m.moduleUUID with
      | true =>
        { rest with
            retained := m :: rest.retained
            associated := moduleKey m :: rest.associated
            calls := .existsCall w m.moduleUUID :: rest.calls }
      | false =>
        { rest with calls := .existsCall w m.moduleUUID :: rest.calls }

/-- Result of step 3 of the pass: records newly created, names whose
creation did not succeed, accumulated fatal error messages, and the service
calls made. -/
structure CreateStep where
  created : List ClusterModule
  failing : List String
  errs : List String
  calls : List SvcCall
deriving DecidableEq, Repr

/-- The record appended when `Create` succeeds for a target. -/
def mkModule (w : Wrapper) (id : String) : ClusterModule :=
  ⟨w.controlPlane, w.name, id⟩

/-- Modelled from the spec: step 3 of `Reconcile` — for each live key not
already associated, call `Create`: a non-empty ID appends a new record; an
empty ID with no error is a deliberate skip; an incompatible-owner error
appends the target's name to the failing list only; any other error appends
the name and accumulates a pass-fatal error. -/
def createStep (svc : CMService) (associated : List String) :
    List (String × Wrapper) → CreateStep
  | [] => ⟨[], [], [], []⟩
  | (k, w) :: rest =>
    if k ∈ associated then createStep svc associated rest
    else
      let res := createStep svc associated rest
      match svc.create w with
      | (id, none) =>
        if id = "" then { res with calls := .createCall w :: res.calls }
        else
          { res with
              created := mkModule w id :: res.created
              calls := .createCall w :: res.calls }
      | (_, some (.incompatibleOwner _)) =>
        { res with
            failing := w.name :: res.failing
            calls := .createCall w :: res.calls }
      | (_, some (.generic msg)) =>
        { res with
            failing := w.name :: res.failing
            errs := msg :: res.errs
            calls := .createCall w :: res.calls }

/-- The availability signal (`ClusterModulesAvailableCondition`): satisfied
flag plus the list of failing target names shown in the message. -/
structure Signal where
  satisfied : Bool
  message : List String
deriving DecidableEq, Repr

/-- The outcome of one reconciliation pass: the replaced record list, the
recomputed availability signal, the accumulated pass-fatal error messages
(the returned error is nil exactly when this list is empty), and every
grouping-service call made. -/
structure ReconcileResult where
  records : List ClusterModule
  signal : Signal
  errs : List String
  calls : List SvcCall
deriving DecidableEq, Repr

/-- Modelled from the spec: the reconciliation engine's pass over an
already-discovered live target map — step 2 (verify/remove existing
records), step 3 (create for unassociated live keys), step 4 (replace the
record list with retained + created), step 5 (recompute the signal from the
failing names), step 6 (the pass-fatal error accumulation). -/
def reconcileLive (svc : CMService) (live : List (String × Wrapper))
    (records : List ClusterModule) : ReconcileResult :=
  let s2 := processRecords svc live records
  let s3 := createStep svc s2.associated live
  { records := s2.retained ++ s3.created
    signal := { satisfied := s3.failing.isEmpty, message := s3.failing }
    errs := s2.errs ++ s3.errs
    calls := s2.calls ++ s3.calls }

/-- A listed Kubernetes resource as discovery sees it: name, namespace,
the value of its cluster-ownership label (if any), and whether deletion has
been requested (a non-nil deletion timestamp). -/
structure Resource where
  name : String
  ns : String
  clusterLabel : Option String
  deleting : Bool
deriving DecidableEq, Repr

/-- The identity of the cluster being reconciled: its name (the ownership
label value) and its namespace. -/
structure ClusterIdentity where
  name : String
  ns : String
deriving DecidableEq, Repr

/-- Whether a listed resource belongs to the cluster: it lives in the
cluster's namespace and carries the cluster-name ownership label. -/
def ownedBy (c : ClusterIdentity) (r : Resource) : Bool :=
  r.ns == c.ns && r.clusterLabel == some c.name

/-- The live (owned and not marked for deletion) resources among a listing. -/
def liveFilter (c : ClusterIdentity) (rs : List Resource) : List Resource :=
  rs.filter (fun r => ownedBy c r && !r.deleting)

/-- Discovery failure: more than one non-deleting control plane. -/
inductive DiscoveryError where
  | multipleControlPlanes
deriving DecidableEq, Repr

/-- The live map entry for a worker-pool resource. -/
def mdEntry (r : Resource) : String × Wrapper :=
  (r.name, ⟨r.name, false⟩)

/-- The live map entry for the control-plane resource. -/
def kcpEntry (r : Resource) : String × Wrapper :=
  (appendKCPKey r.name, ⟨r.name, true⟩)

/-- Modelled from the spec: target discovery (`fetchMachineOwnerObjects`) —
list the cluster's control-plane and worker-pool resources, exclude any
marked for deletion, fail with `MultipleControlPlanesError` when more than
one non-deleting control plane remains, and return the keyed live map
(control-plane key via `appendKCPKey`, worker keys the bare names).  Zero
control planes is valid. -/
def fetchMachineOwnerObjects (c : ClusterIdentity)
    (cps mds : List Resource) :
    Except DiscoveryError (List (String × Wrapper)) :=
  match liveFilter c cps with
  | [] => .ok ((liveFilter c mds).map mdEntry)
  | [cp] => .ok (kcpEntry cp :: (liveFilter c mds).map mdEntry)
  | _ => .error .multipleControlPlanes

/-- Modelled from the spec: the full `Reconcile` entry point — discovery
followed by the engine's pass; a `MultipleControlPlanesError` is propagated
immediately with no state mutation. -/
def reconcile (svc : CMService) (c : ClusterIdentity)
    (cps mds : List Resource) (records : List ClusterModule) :
    Except DiscoveryError ReconcileResult :=
  (fetchMachineOwnerObjects c cps mds).map
    (fun live => reconcileLive svc live records)

/-- A live map is well-formed when every entry's key is the one derived
from its descriptor — true of every map discovery produces. -/
def WellFormedLive (live : List (String × Wrapper)) : Prop :=
  ∀ p ∈ live, p.1 = wrapperKey p.2

/-- Whether `Create` would fail with a generic (pass-fatal) error for this
target. -/
def genericFail (svc : CMService) (w : Wrapper) : Prop :=
  ∃ s msg, svc.create w = (s, some (.generic msg))

/-! ## Basic lemmas about lookup and discovery shapes -/

theorem lookupLive_eq_none (live : List (String × Wrapper)) (k : String) :
    lookupLive live k = none ↔ k ∉ liveKeys live := by
  induction live with
  | nil => simp [lookupLive, liveKeys]
  | cons p rest ih =>
    obtain ⟨k', w⟩ := p
    by_cases h : k' = k
    · subst h
      simp [lookupLive, liveKeys]
    · simp [lookupLive, liveKeys, h, Ne.symm h] at ih ⊢
      exact ih

theorem lookupLive_isSome_of_mem {live : List (String × Wrapper)}
    {k : String} {w : Wrapper} (h : (k, w) ∈ live) :
    ∃ w', lookupLive live k = some w' := by
  induction live with
  | nil => simp at h
  | cons p rest ih =>
    obtain ⟨k', w'⟩ := p
    by_cases hk : k' = k
    · subst hk
      exact ⟨w', by simp [lookupLive]⟩
    · rcases List.mem_cons.mp h with h1 | h2
      · exact absurd (congrArg Prod.fst h1).symm hk
      · simpa [lookupLive, hk] using ih h2

theorem lookupLive_mem {live : List (String × Wrapper)}
    {k : String} {w : Wrapper} (h : lookupLive live k = some w) :
    (k, w) ∈ live := by
  induction live with
  | nil => simp [lookupLive] at h
  | cons p rest ih =>
    obtain ⟨k', w'⟩ := p
    by_cases hk : k' = k
    · subst hk
      simp [lookupLive] at h
      subst h
      exact List.mem_cons_self _ _
    · simp [lookupLive, hk] at h
      exact List.mem_cons_of_mem _ (ih h)

theorem lookupLive_of_mem_nodup {live : List (String × Wrapper)}
    {k : String} {w : Wrapper} (hnd : (liveKeys live).Nodup)
    (h : (k, w) ∈ live) : lookupLive live k = some w := by
  induction live with
  | nil => simp at h
  | cons p rest ih =>
    obtain ⟨k', w'⟩ := p
    simp only [liveKeys, List.map_cons, List.nodup_cons] at hnd
    rcases List.mem_cons.mp h with h1 | h2
    · obtain ⟨hk, hw⟩ := Prod.mk.injEq .. ▸ h1.symm
      subst hk; subst hw
      simp [lookupLive]
    · have hne : k' ≠ k := by
        intro he
        subst he
        exact hnd.1 (by simpa [liveKeys] using List.mem_map_of_mem Prod.fst h2)
      simpa [lookupLive, hne] using ih hnd.2 h2

theorem moduleKey_mkModule (w : Wrapper) (id : String) :
    moduleKey (mkModule w id) = wrapperKey w := by
  cases w with
  | mk name cp => cases cp <;> rfl

theorem appendKCPKey_ne (name : String) : appendKCPKey name ≠ name := by
  intro h
  have hl := congrArg String.length h
  rw [appendKCPKey, String.length_append] at hl
  have h4 : kcpKeySuffix.length = 4 := rfl
  omega

theorem fetchMachineOwnerObjects_wellFormed
    (c : ClusterIdentity) (cps mds : List Resource)
    {live : List (String × Wrapper)}
    (h : fetchMachineOwnerObjects c cps mds = .ok live) :
    WellFormedLive live := by
  unfold fetchMachineOwnerObjects at h
  intro p hp
  rcases hcp : liveFilter c cps with _ | ⟨cp, rest⟩
  · rw [hcp] at h
    simp only [Except.ok.injEq] at h
    subst h
    obtain ⟨r, _, hr⟩ := List.mem_map.mp hp
    subst hr
    rfl
  · rcases rest with _ | ⟨cp2, rest2⟩
    · rw [hcp] at h
      simp only [Except.ok.injEq] at h
      subst h
      rcases List.mem_cons.mp hp with h1 | h2
      · subst h1; rfl
      · obtain ⟨r, _, hr⟩ := List.mem_map.mp h2
        subst hr
        rfl
    · rw [hcp] at h
      simp at h

/-! ## Lemmas about step 2 (verify / remove existing records) -/

theorem processRecords_retained_spec (svc : CMService)
    (live : List (String × Wrapper)) (rs : List ClusterModule) :
    ∀ m ∈ (processRecords svc live rs).retained,
      m ∈ rs ∧
        ((∃ w, lookupLive live (moduleKey m) = some w ∧
            svc.doesExist w m.moduleUUID = true) ∨
         (lookupLive live (moduleKey m) = none ∧
            ∃ e, svc.removeResult m.moduleUUID = some e)) := by
  induction rs with
  | nil => simp [processRecords]
  | cons m0 ms ih =>
    intro m hm
    rcases hlk : lookupLive live (moduleKey m0) with _ | w
    · rcases hrm : svc.removeResult m0.moduleUUID with _ | e
      · simp only [processRecords, hlk, hrm] at hm
        obtain ⟨h1, h2⟩ := ih m hm
        exact ⟨List.mem_cons_of_mem _ h1, h2⟩
      · simp only [processRecords, hlk, hrm] at hm
        rcases List.mem_cons.mp hm with h1 | h2
        · subst h1
          exact ⟨List.mem_cons_self _ _, Or.inr ⟨hlk, e, hrm⟩⟩
        · obtain ⟨h1, h3⟩ := ih m h2
          exact ⟨List.mem_cons_of_mem _ h1, h3⟩
    · cases hex : svc.doesExist w m0.moduleUUID with
      | true =>
        simp only [processRecords, hlk, hex] at hm
        rcases List.mem_cons.mp hm with h1 | h2
        · subst h1
          exact ⟨List.mem_cons_self _ _, Or.inl ⟨w, hlk, hex⟩⟩
        · obtain ⟨h1, h3⟩ := ih m h2
          exact ⟨List.mem_cons_of_mem _ h1, h3⟩
      | false =>
        simp only [processRecords, hlk, hex] at hm
        obtain ⟨h1, h3⟩ := ih m hm
        exact ⟨List.mem_cons_of_mem _ h1, h3⟩

theorem processRecords_associated_spec (svc : CMService)
    (live : List (String × Wrapper)) (rs : List ClusterModule) :
    ∀ k ∈ (processRecords svc live rs).associated,
      ∃ m ∈ rs, moduleKey m = k ∧ ∃ w,
        lookupLive live k = some w ∧ svc.doesExist w m.moduleUUID = true := by
  induction rs with
  | nil => simp [processRecords]
  | cons m0 ms ih =>
    intro k hk
    rcases hlk : lookupLive live (moduleKey m0) with _ | w
    · rcases hrm : svc.removeResult m0.moduleUUID with _ | e
      · simp only [processRecords, hlk, hrm] at hk
        obtain ⟨m, h1, h2⟩ := ih k hk
        exact ⟨m, List.mem_cons_of_mem _ h1, h2⟩
      · simp only [processRecords, hlk, hrm] at hk
        obtain ⟨m, h1, h2⟩ := ih k hk
        exact ⟨m, List.mem_cons_of_mem _ h1, h2⟩
    · cases hex : svc.doesExist w m0.moduleUUID with
      | true =>
        simp only [processRecords, hlk, hex] at hk
        rcases List.mem_cons.mp hk with h1 | h2
        · subst h1
          exact ⟨m0, List.mem_cons_self _ _, rfl, w, hlk, hex⟩
        · obtain ⟨m, h1, h3⟩ := ih k h2
          exact ⟨m, List.mem_cons_of_mem _ h1, h3⟩
      | false =>
        simp only [processRecords, hlk, hex] at hk
        obtain ⟨m, h1, h3⟩ := ih k hk
        exact ⟨m, List.mem_cons_of_mem _ h1, h3⟩

theorem processRecords_removeCall (svc : CMService)
    (live : List (String × Wrapper)) {rs : List ClusterModule}
    {m : ClusterModule} (hm : m ∈ rs)
    (hlk : lookupLive live (moduleKey m) = none) :
    SvcCall.removeCall m.moduleUUID ∈ (processRecords svc live rs).calls := by
  induction rs with
  | nil => simp at hm
  | cons m0 ms ih =>
    rcases List.mem_cons.mp hm with h1 | h2
    · subst h1
      rcases hrm : svc.removeResult m.moduleUUID with _ | e
      · simp [processRecords, hlk, hrm]
      · simp [processRecords, hlk, hrm]
    · have hrest := ih h2
      rcases hlk0 : lookupLive live (moduleKey m0) with _ | w
      · rcases hrm0 : svc.removeResult m0.moduleUUID with _ | e
        · simp only [processRecords, hlk0, hrm0, List.mem_cons]
          exact Or.inr hrest
        · simp only [processRecords, hlk0, hrm0, List.mem_cons]
          exact Or.inr hrest
      · cases hex : svc.doesExist w m0.moduleUUID with
        | true =>
          simp only [processRecords, hlk0, hex, List.mem_cons]
          exact Or.inr hrest
        | false =>
          simp only [processRecords, hlk0, hex, List.mem_cons]
          exact Or.inr hrest

theorem processRecords_errs_nil (svc : CMService)
    (live : List (String × Wrapper)) {rs : List ClusterModule}
    (h : ∀ m ∈ rs, svc.removeResult m.moduleUUID = none) :
    (processRecords svc live rs).errs = [] := by
  induction rs with
  | nil => simp [processRecords]
  | cons m0 ms ih =>
    have hrest := ih (fun m hm => h m (List.mem_cons_of_mem _ hm))
    rcases hlk : lookupLive live (moduleKey m0) with _ | w
    · simp only [processRecords, hlk, h m0 (List.mem_cons_self _ _)]
      exact hrest
    · cases hex : svc.doesExist w m0.moduleUUID with
      | true =>
        simp only [processRecords, hlk, hex]
        exact hrest
      | false =>
        simp only [processRecords, hlk, hex]
        exact hrest

theorem processRecords_keep (svc : CMService)
    (live : List (String × Wrapper)) {rs : List ClusterModule}
    (h : ∀ m ∈ rs, ∃ w, lookupLive live (moduleKey m) = some w ∧
          svc.doesExist w m.moduleUUID = true) :
    (processRecords svc live rs).retained = rs ∧
    (processRecords svc live rs).associated = rs.map moduleKey ∧
    (processRecords svc live rs).errs = [] ∧
    ∀ c ∈ (processRecords svc live rs).calls,
      ∃ w id, c = SvcCall.existsCall w id := by
  induction rs with
  | nil => simp [processRecords]
  | cons m0 ms ih =>
    obtain ⟨w, hlk, hex⟩ := h m0 (List.mem_cons_self _ _)
    obtain ⟨h1, h2, h3, h4⟩ := ih (fun m hm => h m (List.mem_cons_of_mem _ hm))
    refine ⟨?_, ?_, ?_, ?_⟩
    · simp only [processRecords, hlk, hex]
      simpa using h1
    · simp only [processRecords, hlk, hex]
      simpa using h2
    · simp only [processRecords, hlk, hex]
      exact h3
    · simp only [processRecords, hlk, hex]
      intro c hc
      rcases List.mem_cons.mp hc with hc1 | hc2
      · exact ⟨w, m0.moduleUUID, hc1⟩
      · exact h4 c hc2

theorem processRecords_retained_drop (svc : CMService)
    (live : List (String × Wrapper)) {rs : List ClusterModule}
    (hnd : (rs.map moduleKey).Nodup) {m : ClusterModule} (hm : m ∈ rs)
    (hlk : lookupLive live (moduleKey m) = none)
    (hrm : svc.removeResult m.moduleUUID = none) :
    ∀ m' ∈ (processRecords svc live rs).retained, moduleKey m' ≠ moduleKey m := by
  intro m' hm' heq
  obtain ⟨hmem, hcases⟩ := processRecords_retained_spec svc live rs m' hm'
  have hmm : m' = m := List.inj_on_of_nodup_map hnd hmem hm heq
  subst hmm
  rcases hcases with ⟨w, hw, _⟩ | ⟨_, e, he⟩
  · rw [heq] at hw
    rw [hlk] at hw
    exact Option.noConfusion hw
  · rw [hrm] at he
    exact Option.noConfusion he

/-! ## Lemmas about step 3 (create for unassociated live keys) -/

theorem createStep_cons_sub (svc : CMService) (assoc : List String)
    (k0 : String) (w0 : Wrapper) (rest : List (String × Wrapper)) :
    (∀ x ∈ (createStep svc assoc rest).created,
       x ∈ (createStep svc assoc ((k0, w0) :: rest)).created) ∧
    (∀ x ∈ (createStep svc assoc rest).failing,
       x ∈ (createStep svc assoc ((k0, w0) :: rest)).failing) ∧
    (∀ x ∈ (createStep svc assoc rest).errs,
       x ∈ (createStep svc assoc ((k0, w0) :: rest)).errs) := by
  by_cases ha : k0 ∈ assoc
  · simp only [createStep, if_pos ha]
    exact ⟨fun x h => h, fun x h => h, fun x h => h⟩
  · rcases hc0 : svc.create w0 with ⟨id0, err0⟩
    rcases err0 with _ | e
    · by_cases hid0 : id0 = ""
      · simp only [createStep, if_neg ha, hc0, if_pos hid0]
        exact ⟨fun x h => h, fun x h => h, fun x h => h⟩
      · simp only [createStep, if_neg ha, hc0, if_neg hid0]
        exact ⟨fun x h => List.mem_cons_of_mem _ h, fun x h => h, fun x h => h⟩
    · rcases e with r | msg
      · simp only [createStep, if_neg ha, hc0]
        exact ⟨fun x h => h, fun x h => List.mem_cons_of_mem _ h, fun x h => h⟩
      · simp only [createStep, if_neg ha, hc0]
        exact ⟨fun x h => h, fun x h => List.mem_cons_of_mem _ h,
          fun x h => List.mem_cons_of_mem _ h⟩

theorem createStep_created_of (svc : CMService) (assoc : List String)
    {live : List (String × Wrapper)} {k : String} {w : Wrapper} {id : String}
    (hmem : (k, w) ∈ live) (hk : k ∉ assoc)
    (hc : svc.create w = (id, none)) (hid : id ≠ "") :
    mkModule w id ∈ (createStep svc assoc live).created := by
  induction live with
  | nil => simp at hmem
  | cons p rest ih =>
    obtain ⟨k0, w0⟩ := p
    rcases List.mem_cons.mp hmem with h1 | h2
    · simp only [Prod.mk.injEq] at h1
      obtain ⟨rfl, rfl⟩ := h1
      simp only [createStep, if_neg hk, hc, if_neg hid]
      exact List.mem_cons_self _ _
    · exact (createStep_cons_sub svc assoc k0 w0 rest).1 _ (ih h2)

theorem createStep_failing_incompat (svc : CMService) (assoc : List String)
    {live : List (String × Wrapper)} {k : String} {w : Wrapper}
    {s r : String} (hmem : (k, w) ∈ live) (hk : k ∉ assoc)
    (hc : svc.create w = (s, some (.incompatibleOwner r))) :
    w.name ∈ (createStep svc assoc live).failing := by
  induction live with
  | nil => simp at hmem
  | cons p rest ih =>
    obtain ⟨k0, w0⟩ := p
    rcases List.mem_cons.mp hmem with h1 | h2
    · simp only [Prod.mk.injEq] at h1
      obtain ⟨rfl, rfl⟩ := h1
      simp only [createStep, if_neg hk, hc]
      exact List.mem_cons_self _ _
    · exact (createStep_cons_sub svc assoc k0 w0 rest).2.1 _ (ih h2)

theorem createStep_failing_generic (svc : CMService) (assoc : List String)
    {live : List (String × Wrapper)} {k : String} {w : Wrapper}
    {s msg : String} (hmem : (k, w) ∈ live) (hk : k ∉ assoc)
    (hc : svc.create w = (s, some (.generic msg))) :
    w.name ∈ (createStep svc assoc live).failing ∧
    msg ∈ (createStep svc assoc live).errs := by
  induction live with
  | nil => simp at hmem
  | cons p rest ih =>
    obtain ⟨k0, w0⟩ := p
    rcases List.mem_cons.mp hmem with h1 | h2
    · simp only [Prod.mk.injEq] at h1
      obtain ⟨rfl, rfl⟩ := h1
      simp only [createStep, if_neg hk, hc]
      exact ⟨List.mem_cons_self _ _, List.mem_cons_self _ _⟩
    · obtain ⟨hf, he⟩ := ih h2
      exact ⟨(createStep_cons_sub svc assoc k0 w0 rest).2.1 _ hf,
        (createStep_cons_sub svc assoc k0 w0 rest).2.2 _ he⟩

theorem createStep_errs_nil (svc : CMService) (assoc : List String)
    {live : List (String × Wrapper)}
    (h : ∀ p ∈ live, ¬ genericFail svc p.2) :
    (createStep svc assoc live).errs = [] := by
  induction live with
  | nil => simp [createStep]
  | cons p rest ih =>
    obtain ⟨k0, w0⟩ := p
    have hrest := ih (fun q hq => h q (List.mem_cons_of_mem _ hq))
    by_cases ha : k0 ∈ assoc
    · simp only [createStep, if_pos ha]
      exact hrest
    · rcases hc0 : svc.create w0 with ⟨id0, err0⟩
      rcases err0 with _ | e
      · by_cases hid0 : id0 = ""
        · simp only [createStep, if_neg ha, hc0, if_pos hid0]
          exact hrest
        · simp only [createStep, if_neg ha, hc0, if_neg hid0]
          exact hrest
      · rcases e with r | msg
        · simp only [createStep, if_neg ha, hc0]
          exact hrest
        · exact absurd ⟨id0, msg, hc0⟩ (h (k0, w0) (List.mem_cons_self _ _))

theorem createStep_created_spec (svc : CMService) (assoc : List String)
    (live : List (String × Wrapper)) :
    ∀ m ∈ (createStep svc assoc live).created,
      ∃ k w id, (k, w) ∈ live ∧ k ∉ assoc ∧
        svc.create w = (id, none) ∧ id ≠ "" ∧ m = mkModule w id := by
  induction live with
  | nil => simp [createStep]
  | cons p rest ih =>
    obtain ⟨k0, w0⟩ := p
    intro m hm
    have step : ∀ m' ∈ (createStep svc assoc rest).created,
        ∃ k w id, (k, w) ∈ (k0, w0) :: rest ∧ k ∉ assoc ∧
          svc.create w = (id, none) ∧ id ≠ "" ∧ m' = mkModule w id := by
      intro m' hm'
      obtain ⟨k, w, id, h1, h2, h3, h4, h5⟩ := ih m' hm'
      exact ⟨k, w, id, List.mem_cons_of_mem _ h1, h2, h3, h4, h5⟩
    by_cases ha : k0 ∈ assoc
    · simp only [createStep, if_pos ha] at hm
      exact step m hm
    · rcases hc0 : svc.create w0 with ⟨id0, err0⟩
      rcases err0 with _ | e
      · by_cases hid0 : id0 = ""
        · simp only [createStep, if_neg ha, hc0, if_pos hid0] at hm
          exact step m hm
        · simp only [createStep, if_neg ha, hc0, if_neg hid0] at hm
          rcases List.mem_cons.mp hm with h1 | h2
          · exact ⟨k0, w0, id0, List.mem_cons_self _ _, ha, hc0, hid0, h1⟩
          · exact step m h2
      · rcases e with r | msg
        · simp only [createStep, if_neg ha, hc0] at hm
          exact step m hm
        · simp only [createStep, if_neg ha, hc0] at hm
          exact step m hm

theorem createStep_failing_spec (svc : CMService) (assoc : List String)
    (live : List (String × Wrapper)) :
    ∀ n ∈ (createStep svc assoc live).failing,
      ∃ k w, (k, w) ∈ live ∧ k ∉ assoc ∧ n = w.name ∧
        ∃ s e, svc.create w = (s, some e) := by
  induction live with
  | nil => simp [createStep]
  | cons p rest ih =>
    obtain ⟨k0, w0⟩ := p
    intro n hn
    have step : ∀ n' ∈ (createStep svc assoc rest).failing,
        ∃ k w, (k, w) ∈ (k0, w0) :: rest ∧ k ∉ assoc ∧ n' = w.name ∧
          ∃ s e, svc.create w = (s, some e) := by
      intro n' hn'
      obtain ⟨k, w, h1, h2, h3, h4⟩ := ih n' hn'
      exact ⟨k, w, List.mem_cons_of_mem _ h1, h2, h3, h4⟩
    by_cases ha : k0 ∈ assoc
    · simp only [createStep, if_pos ha] at hn
      exact step n hn
    · rcases hc0 : svc.create w0 with ⟨id0, err0⟩
      rcases err0 with _ | e
      · by_cases hid0 : id0 = ""
        · simp only [createStep, if_neg ha, hc0, if_pos hid0] at hn
          exact step n hn
        · simp only [createStep, if_neg ha, hc0, if_neg hid0] at hn
          exact step n hn
      · rcases e with r | msg
        · simp only [createStep, if_neg ha, hc0] at hn
          rcases List.mem_cons.mp hn with h1 | h2
          · exact ⟨k0, w0, List.mem_cons_self _ _, ha, h1, id0,
              .incompatibleOwner r, hc0⟩
          · exact step n h2
        · simp only [createStep, if_neg ha, hc0] at hn
          rcases List.mem_cons.mp hn with h1 | h2
          · exact ⟨k0, w0, List.mem_cons_self _ _, ha, h1, id0,
              .generic msg, hc0⟩
          · exact step n h2

theorem createStep_calls_spec (svc : CMService) (assoc : List String)
    (live : List (String × Wrapper)) :
    ∀ c ∈ (createStep svc assoc live).calls, ∃ w, c = SvcCall.createCall w := by
  induction live with
  | nil => simp [createStep]
  | cons p rest ih =>
    obtain ⟨k0, w0⟩ := p
    intro c hc
    by_cases ha : k0 ∈ assoc
    · simp only [createStep, if_pos ha] at hc
      exact ih c hc
    · rcases hc0 : svc.create w0 with ⟨id0, err0⟩
      rcases err0 with _ | e
      · by_cases hid0 : id0 = ""
        · simp only [createStep, if_neg ha, hc0, if_pos hid0] at hc
          rcases List.mem_cons.mp hc with h1 | h2
          · exact ⟨w0, h1⟩
          · exact ih c h2
        · simp only [createStep, if_neg ha, hc0, if_neg hid0] at hc
          rcases List.mem_cons.mp hc with h1 | h2
          · exact ⟨w0, h1⟩
          · exact ih c h2
      · rcases e with r | msg
        · simp only [createStep, if_neg ha, hc0] at hc
          rcases List.mem_cons.mp hc with h1 | h2
          · exact ⟨w0, h1⟩
          · exact ih c h2
        · simp only [createStep, if_neg ha, hc0] at hc
          rcases List.mem_cons.mp hc with h1 | h2
          · exact ⟨w0, h1⟩
          · exact ih c h2

theorem createStep_skip_all (svc : CMService) (assoc : List String)
    {live : List (String × Wrapper)} (h : ∀ p ∈ live, p.1 ∈ assoc) :
    createStep svc assoc live = ⟨[], [], [], []⟩ := by
  induction live with
  | nil => rfl
  | cons p rest ih =>
    obtain ⟨k0, w0⟩ := p
    have hk0 : k0 ∈ assoc := h (k0, w0) (List.mem_cons_self _ _)
    simp only [createStep, if_pos hk0]
    exact ih (fun q hq => h q (List.mem_cons_of_mem _ hq))

theorem createStep_idem (svc : CMService) {assoc1 assoc2 : List String}
    {live : List (String × Wrapper)}
    (hsub : ∀ p ∈ live, p.1 ∈ assoc1 → p.1 ∈ assoc2)
    (hnew : ∀ p ∈ live, p.1 ∈ assoc2 → p.1 ∉ assoc1 →
      ∃ id, svc.create p.2 = (id, none) ∧ id ≠ "")
    (hfail : ∀ p ∈ live, p.1 ∉ assoc2 →
      ∀ id, svc.create p.2 = (id, none) → id = "") :
    (createStep svc assoc2 live).failing = (createStep svc assoc1 live).failing ∧
    (createStep svc assoc2 live).created = [] ∧
    (createStep svc assoc2 live).errs = (createStep svc assoc1 live).errs := by
  induction live with
  | nil => simp [createStep]
  | cons p rest ih =>
    obtain ⟨k0, w0⟩ := p
    obtain ⟨ihf, ihc, ihe⟩ := ih
      (fun q hq => hsub q (List.mem_cons_of_mem _ hq))
      (fun q hq => hnew q (List.mem_cons_of_mem _ hq))
      (fun q hq => hfail q (List.mem_cons_of_mem _ hq))
    by_cases h1 : k0 ∈ assoc1
    · have h2 : k0 ∈ assoc2 := hsub (k0, w0) (List.mem_cons_self _ _) h1
      simp only [createStep, if_pos h1, if_pos h2]
      exact ⟨ihf, ihc, ihe⟩
    · by_cases h2 : k0 ∈ assoc2
      · obtain ⟨id, hc0, hid⟩ := hnew (k0, w0) (List.mem_cons_self _ _) h2 h1
        simp only [createStep, if_pos h2, if_neg h1, hc0, if_neg hid]
        exact ⟨ihf, ihc, ihe⟩
      · rcases hc0 : svc.create w0 with ⟨id0, err0⟩
        rcases err0 with _ | e
        · have hid0 : id0 = "" := hfail (k0, w0) (List.mem_cons_self _ _) h2 id0 hc0
          simp only [createStep, if_neg h1, if_neg h2, hc0, if_pos hid0]
          exact ⟨ihf, ihc, ihe⟩
        · rcases e with r | msg
          · simp only [createStep, if_neg h1, if_neg h2, hc0]
            exact ⟨by rw [ihf], ihc, ihe⟩
          · simp only [createStep, if_neg h1, if_neg h2, hc0]
            exact ⟨by rw [ihf], ihc, by rw [ihe]⟩

theorem processRecords_assoc_retained (svc : CMService)
    (live : List (String × Wrapper)) (rs : List ClusterModule) :
    ∀ k ∈ (processRecords svc live rs).associated,
      ∃ m ∈ (processRecords svc live rs).retained, moduleKey m = k := by
  induction rs with
  | nil => simp [processRecords]
  | cons m0 ms ih =>
    intro k hk
    rcases hlk : lookupLive live (moduleKey m0) with _ | w
    · rcases hrm : svc.removeResult m0.moduleUUID with _ | e
      · simp only [processRecords, hlk, hrm] at hk ⊢
        exact ih k hk
      · simp only [processRecords, hlk, hrm] at hk ⊢
        obtain ⟨m, h1, h2⟩ := ih k hk
        exact ⟨m, List.mem_cons_of_mem _ h1, h2⟩
    · cases hex : svc.doesExist w m0.moduleUUID with
      | true =>
        simp only [processRecords, hlk, hex] at hk ⊢
        rcases List.mem_cons.mp hk with h1 | h2
        · exact ⟨m0, List.mem_cons_self _ _, h1.symm⟩
        · obtain ⟨m, h1, h3⟩ := ih k h2
          exact ⟨m, List.mem_cons_of_mem _ h1, h3⟩
      | false =>
        simp only [processRecords, hlk, hex] at hk ⊢
        exact ih k hk

theorem processRecords_retained_assoc (svc : CMService)
    (live : List (String × Wrapper)) (rs : List ClusterModule) :
    ∀ m ∈ (processRecords svc live rs).retained,
      ∀ w, lookupLive live (moduleKey m) = some w →
        moduleKey m ∈ (processRecords svc live rs).associated := by
  induction rs with
  | nil => simp [processRecords]
  | cons m0 ms ih =>
    intro m hm w hw
    rcases hlk : lookupLive live (moduleKey m0) with _ | w0
    · rcases hrm : svc.removeResult m0.moduleUUID with _ | e
      · simp only [processRecords, hlk, hrm] at hm ⊢
        exact ih m hm w hw
      · simp only [processRecords, hlk, hrm] at hm ⊢
        rcases List.mem_cons.mp hm with h1 | h2
        · subst h1
          rw [hlk] at hw
          exact Option.noConfusion hw
        · exact ih m h2 w hw
    · cases hex : svc.doesExist w0 m0.moduleUUID with
      | true =>
        simp only [processRecords, hlk, hex] at hm ⊢
        rcases List.mem_cons.mp hm with h1 | h2
        · subst h1
          exact List.mem_cons_self _ _
        · exact List.mem_cons_of_mem _ (ih m h2 w hw)
      | false =>
        simp only [processRecords, hlk, hex] at hm ⊢
        exact ih m hm w hw

/-! ## Helper facts about a full pass -/

theorem reconcileLive_records_eq (svc : CMService)
    (live : List (String × Wrapper)) (records : List ClusterModule) :
    (reconcileLive svc live records).records =
      (processRecords svc live records).retained ++
      (createStep svc (processRecords svc live records).associated live).created :=
  rfl

/-- No record with the live key `k` survives the pass when the target's
`Create` cannot succeed and no incoming record carries `k`. -/
theorem reconcileLive_no_record (svc : CMService)
    {live : List (String × Wrapper)} {records : List ClusterModule}
    (hwf : WellFormedLive live) (hndl : (liveKeys live).Nodup)
    {k : String} {w : Wrapper} (hmem : (k, w) ∈ live)
    (hrec : ∀ m ∈ records, moduleKey m ≠ k)
    (hnc : ∀ id, svc.create w = (id, none) → id = "") :
    ∀ m ∈ (reconcileLive svc live records).records, moduleKey m ≠ k := by
  intro m hm
  rw [reconcileLive_records_eq] at hm
  rcases List.mem_append.mp hm with h1 | h2
  · exact hrec m (processRecords_retained_spec svc live records m h1).1
  · obtain ⟨k', w', id, hk'w', hk'a, hcw', hid, rfl⟩ :=
      createStep_created_spec svc _ live m h2
    rw [moduleKey_mkModule]
    intro hkey
    have hk'k : k' = k := (hwf (k', w') hk'w').trans hkey
    subst hk'k
    have hww' : w' = w := by
      have h1 := lookupLive_of_mem_nodup hndl hmem
      have h2 := lookupLive_of_mem_nodup hndl hk'w'
      rw [h1] at h2
      exact (Option.some.inj h2).symm
    subst hww'
    exact hid (hnc id hcw')

/-- An incoming key absent from every record is not associated by step 2. -/
theorem not_assoc_of_no_record (svc : CMService)
    (live : List (String × Wrapper)) {records : List ClusterModule}
    {k : String} (hrec : ∀ m ∈ records, moduleKey m ≠ k) :
    k ∉ (processRecords svc live records).associated := by
  intro hk
  obtain ⟨m, hm, hkey, _⟩ := processRecords_associated_spec svc live records k hk
  exact hrec m hm hkey

/-! ## Claim theorems -/

/-- C1: when `Create` for a live target fails with the distinguished
incompatible-owner error, the pass adds no association record for that
target, appends the target's name to the availability signal's failing-name
list (so the signal is unsatisfied and its message contains the name), and
does not treat this as pass-fatal: if every other sub-operation succeeds the
accumulated error list is empty, so `Reconcile` returns nil. -/
theorem C1_incompatible_owner_nonfatal (svc : CMService)
    (live : List (String × Wrapper)) (records : List ClusterModule)
    (hwf : WellFormedLive live) (hndl : (liveKeys live).Nodup)
    {k : String} {w : Wrapper} (hmem : (k, w) ∈ live)
    (hrec : ∀ m ∈ records, moduleKey m ≠ k)
    {s r : String} (hc : svc.create w = (s, some (.incompatibleOwner r))) :
    (∀ m ∈ (reconcileLive svc live records).records, moduleKey m ≠ k) ∧
    w.name ∈ (reconcileLive svc live records).signal.message ∧
    (reconcileLive svc live records).signal.satisfied = false ∧
    ((∀ p ∈ live, ¬ genericFail svc p.2) →
      (∀ m ∈ records, svc.removeResult m.moduleUUID = none) →
      (reconcileLive svc live records).errs = []) := by
  have hka := not_assoc_of_no_record svc live hrec
  have hfail := createStep_failing_incompat svc
    (processRecords svc live records).associated hmem hka hc
  refine ⟨?_, hfail, ?_, ?_⟩
  · exact reconcileLive_no_record svc hwf hndl hmem hrec
      (fun id hid => by rw [hid] at hc; simp at hc)
  · show (createStep svc (processRecords svc live records).associated live).failing.isEmpty = false
    cases hfe : (createStep svc (processRecords svc live records).associated live).failing with
    | nil => rw [hfe] at hfail; exact absurd hfail (List.not_mem_nil _)
    | cons a l => rfl
  · intro hgen hrm
    show (processRecords svc live records).errs ++ _ = []
    rw [processRecords_errs_nil svc live hrm, createStep_errs_nil svc _ hgen]
    rfl

theorem isEmpty_false_of_mem {α : Type} {a : α} {l : List α} (h : a ∈ l) :
    l.isEmpty = false := by
  cases l with
  | nil => exact absurd h (List.not_mem_nil a)
  | cons x xs => rfl

/-- Test fixture: the control-plane target named kcp. -/
def wKcp : Wrapper := ⟨"kcp", true⟩

/-- Test fixture: the worker-pool target named md. -/
def wMd : Wrapper := ⟨"md", false⟩

/-- Test fixture: the live map holding the kcp and md targets. -/
def liveKM : List (String × Wrapper) := [(appendKCPKey "kcp", wKcp), ("md", wMd)]

/-- Test fixture: a service where creating the control-plane grouping hits
the incompatible-owner error while the worker-pool grouping succeeds. -/
def svcC1 : CMService :=
  { doesExist := fun _ _ => true
    create := fun w =>
      if w.controlPlane then ("", some (.incompatibleOwner "foo-123"))
      else ("uuid-md", none)
    removeResult := fun _ => none }

theorem C1_incompatible_owner_nonfatal_witness :
    (∀ m ∈ (reconcileLive svcC1 liveKM []).records,
        moduleKey m ≠ appendKCPKey "kcp") ∧
    "kcp" ∈ (reconcileLive svcC1 liveKM []).signal.message ∧
    (reconcileLive svcC1 liveKM []).signal.satisfied = false ∧
    (reconcileLive svcC1 liveKM []).errs = [] := by
  obtain ⟨h1, h2, h3, h4⟩ := C1_incompatible_owner_nonfatal svcC1 liveKM []
    (by
      intro p hp
      simp only [liveKM, List.mem_cons, List.not_mem_nil, or_false] at hp
      rcases hp with rfl | rfl <;> rfl)
    (by decide)
    (show (appendKCPKey "kcp", wKcp) ∈ liveKM from List.mem_cons_self _ _)
    (fun m hm => absurd hm (List.not_mem_nil m))
    (show svcC1.create wKcp = ("", some (.incompatibleOwner "foo-123")) from rfl)
  refine ⟨h1, h2, h3, h4 ?_ ?_⟩
  · rintro p hp ⟨s, msg, hmsg⟩
    simp only [liveKM, List.mem_cons, List.not_mem_nil, or_false] at hp
    rcases hp with rfl | rfl <;> simp [svcC1, wKcp, wMd] at hmsg
  · intro m hm
    exact absurd hm (List.not_mem_nil m)

/-- C2: when `Create` for target A succeeds with a non-empty grouping ID
and `Create` for target B fails with a generic (non-incompatible-owner)
error, the pass persists A's new association record (partial progress is
not discarded), accumulates a pass-fatal error (so `Reconcile` returns a
non-nil error), and the availability signal is unsatisfied with B's name in
its message. -/
theorem C2_partial_failure_independence (svc : CMService)
    (live : List (String × Wrapper)) (records : List ClusterModule)
    {kA : String} {wA : Wrapper} {idA : String}
    {kB : String} {wB : Wrapper} {sB msgB : String}
    (hA : (kA, wA) ∈ live) (hB : (kB, wB) ∈ live)
    (hcA : svc.create wA = (idA, none)) (hidA : idA ≠ "")
    (hcB : svc.create wB = (sB, some (.generic msgB)))
    (hrecA : ∀ m ∈ records, moduleKey m ≠ kA)
    (hrecB : ∀ m ∈ records, moduleKey m ≠ kB) :
    mkModule wA idA ∈ (reconcileLive svc live records).records ∧
    (reconcileLive svc live records).errs ≠ [] ∧
    (reconcileLive svc live records).signal.satisfied = false ∧
    wB.name ∈ (reconcileLive svc live records).signal.message := by
  have hkA := not_assoc_of_no_record svc live hrecA
  have hkB := not_assoc_of_no_record svc live hrecB
  have hcreated := createStep_created_of svc _ hA hkA hcA hidA
  obtain ⟨hfailB, herrB⟩ := createStep_failing_generic svc _ hB hkB hcB
  refine ⟨?_, ?_, ?_, hfailB⟩
  · rw [reconcileLive_records_eq]
    exact List.mem_append_right _ hcreated
  · exact List.ne_nil_of_mem (List.mem_append_right _ herrB)
  · exact isEmpty_false_of_mem hfailB

/-- Test fixture: a service where creating the control-plane grouping
succeeds and the worker-pool grouping fails with a generic error. -/
def svcC2 : CMService :=
  { doesExist := fun _ _ => true
    create := fun w =>
      if w.controlPlane then ("uuid-kcp", none)
      else ("", some (.generic "failed to reach API"))
    removeResult := fun _ => none }

theorem C2_partial_failure_independence_witness :
    mkModule wKcp "uuid-kcp" ∈ (reconcileLive svcC2 liveKM []).records ∧
    (reconcileLive svcC2 liveKM []).errs ≠ [] ∧
    (reconcileLive svcC2 liveKM []).signal.satisfied = false ∧
    "md" ∈ (reconcileLive svcC2 liveKM []).signal.message :=
  C2_partial_failure_independence svcC2 liveKM []
    (show (appendKCPKey "kcp", wKcp) ∈ liveKM from List.mem_cons_self _ _)
    (show ("md", wMd) ∈ liveKM by decide)
    (show svcC2.create wKcp = ("uuid-kcp", none) from rfl)
    (by decide)
    (show svcC2.create wMd = ("", some (.generic "failed to reach API")) from rfl)
    (fun m hm => absurd hm (List.not_mem_nil m))
    (fun m hm => absurd hm (List.not_mem_nil m))

/-- C3: a record whose key is no longer in the live set has `Remove` called
with its grouping ID during the pass, and when the removal succeeds no
record with that key survives into the resulting record list. -/
theorem C3_remove_stale_records (svc : CMService)
    (live : List (String × Wrapper)) (records : List ClusterModule)
    (hwf : WellFormedLive live)
    (hnd : (records.map moduleKey).Nodup)
    {m : ClusterModule} (hm : m ∈ records)
    (hgone : moduleKey m ∉ liveKeys live) :
    SvcCall.removeCall m.moduleUUID ∈ (reconcileLive svc live records).calls ∧
    (svc.removeResult m.moduleUUID = none →
      ∀ m' ∈ (reconcileLive svc live records).records,
        moduleKey m' ≠ moduleKey m) := by
  have hlk : lookupLive live (moduleKey m) = none :=
    (lookupLive_eq_none _ _).mpr hgone
  constructor
  · exact List.mem_append_left _ (processRecords_removeCall svc live hm hlk)
  · intro hrm m' hm'
    rw [reconcileLive_records_eq] at hm'
    rcases List.mem_append.mp hm' with h1 | h2
    · exact processRecords_retained_drop svc live hnd hm hlk hrm m' h1
    · obtain ⟨k', w', id, hk'w', _, _, _, rfl⟩ :=
        createStep_created_spec svc _ live m' h2
      rw [moduleKey_mkModule]
      intro hkey
      apply hgone
      rw [← hkey, ← hwf (k', w') hk'w']
      exact List.mem_map_of_mem Prod.fst hk'w'

/-- Test fixture: the stored record for the control-plane target. -/
def recKcp : ClusterModule := ⟨true, "kcp", "uuid-1"⟩

/-- Test fixture: the stored record for the worker-pool target. -/
def recMd : ClusterModule := ⟨false, "md", "uuid-2"⟩

/-- Test fixture: a service whose removals always succeed. -/
def svcRm : CMService :=
  { doesExist := fun _ _ => true
    create := fun _ => ("", none)
    removeResult := fun _ => none }

theorem C3_remove_stale_records_witness :
    (SvcCall.removeCall "uuid-1" ∈ (reconcileLive svcRm [] [recKcp, recMd]).calls ∧
      (svcRm.removeResult "uuid-1" = none →
        ∀ m' ∈ (reconcileLive svcRm [] [recKcp, recMd]).records,
          moduleKey m' ≠ moduleKey recKcp)) ∧
    SvcCall.removeCall "uuid-2" ∈ (reconcileLive svcRm [] [recKcp, recMd]).calls ∧
    (reconcileLive svcRm [] [recKcp, recMd]).records = [] := by
  refine ⟨?_, by decide, by decide⟩
  exact C3_remove_stale_records svcRm [] [recKcp, recMd]
    (fun p hp => absurd hp (List.not_mem_nil p))
    (by decide)
    (List.mem_cons_self _ _)
    (by decide)

/-! ## Discovery lemmas and claims -/

theorem mem_liveFilter (c : ClusterIdentity) (rs : List Resource)
    (r : Resource) :
    r ∈ liveFilter c rs ↔
      r ∈ rs ∧ ownedBy c r = true ∧ r.deleting = false := by
  simp [liveFilter, List.mem_filter, Bool.and_eq_true, Bool.not_eq_true']

theorem mem_mdEntries (c : ClusterIdentity) (mds : List Resource)
    (k : String) (w : Wrapper) :
    (k, w) ∈ (liveFilter c mds).map mdEntry ↔
      ∃ r ∈ mds, ownedBy c r = true ∧ r.deleting = false ∧
        w = ⟨r.name, false⟩ ∧ k = r.name := by
  rw [List.mem_map]
  constructor
  · rintro ⟨r, hr, he⟩
    obtain ⟨h1, h2, h3⟩ := (mem_liveFilter c mds r).mp hr
    simp only [mdEntry, Prod.mk.injEq] at he
    exact ⟨r, h1, h2, h3, he.2.symm, he.1.symm⟩
  · rintro ⟨r, hr, ho, hd, rfl, rfl⟩
    exact ⟨r, (mem_liveFilter c mds r).mpr ⟨hr, ho, hd⟩, rfl⟩

/-- C4: discovery fails with `MultipleControlPlanesError` whenever more
than one non-deleting control-plane resource is owned by the cluster, and
succeeds — with no control-plane entry in the returned map — when zero
are. -/
theorem C4_at_most_one_control_plane (c : ClusterIdentity)
    (cps mds : List Resource) :
    (1 < (liveFilter c cps).length →
      fetchMachineOwnerObjects c cps mds = .error .multipleControlPlanes) ∧
    ((liveFilter c cps).length = 0 →
      ∃ m, fetchMachineOwnerObjects c cps mds = .ok m ∧
        ∀ p ∈ m, p.2.controlPlane = false) := by
  constructor
  · intro h
    unfold fetchMachineOwnerObjects
    rcases hf : liveFilter c cps with _ | ⟨a, _ | ⟨b, rest⟩⟩
    · rw [hf] at h
      simp at h
    · rw [hf] at h
      simp at h
    · rfl
  · intro h
    have hf : liveFilter c cps = [] := List.length_eq_zero.mp h
    refine ⟨(liveFilter c mds).map mdEntry, ?_, ?_⟩
    · unfold fetchMachineOwnerObjects
      rw [hf]
    · intro p hp
      obtain ⟨r, _, rfl⟩ := List.mem_map.mp hp
      rfl

theorem C4_at_most_one_control_plane_witness :
    fetchMachineOwnerObjects ⟨"cluster-a", "default"⟩
      [⟨"foo-1", "default", some "cluster-a", false⟩,
       ⟨"foo-2", "default", some "cluster-a", false⟩] []
      = .error .multipleControlPlanes ∧
    ∃ m, fetchMachineOwnerObjects ⟨"cluster-a", "default"⟩ []
        [⟨"md-1", "default", some "cluster-a", false⟩] = .ok m ∧
      ∀ p ∈ m, p.2.controlPlane = false :=
  ⟨(C4_at_most_one_control_plane _ _ _).1 (by decide),
   (C4_at_most_one_control_plane _ _ _).2 (by decide)⟩

/-- C6: on success, discovery's keyed map covers exactly the live,
non-terminating resources owned by the cluster: an entry exists precisely
for the owned non-deleting control plane (keyed by the reserved transform)
and for each owned non-deleting worker pool (keyed by its name); resources
marked for deletion are excluded. -/
theorem C6_discovery_covers_exactly (c : ClusterIdentity)
    (cps mds : List Resource) {m : List (String × Wrapper)}
    (h : fetchMachineOwnerObjects c cps mds = .ok m) :
    ∀ k w, ((k, w) ∈ m ↔
      ((∃ r ∈ cps, ownedBy c r = true ∧ r.deleting = false ∧
          w = ⟨r.name, true⟩ ∧ k = appendKCPKey r.name) ∨
       (∃ r ∈ mds, ownedBy c r = true ∧ r.deleting = false ∧
          w = ⟨r.name, false⟩ ∧ k = r.name))) := by
  intro k w
  unfold fetchMachineOwnerObjects at h
  rcases hf : liveFilter c cps with _ | ⟨cp, _ | ⟨cp2, rest⟩⟩ <;> rw [hf] at h
  · simp only [Except.ok.injEq] at h
    subst h
    constructor
    · intro hp
      exact Or.inr ((mem_mdEntries c mds k w).mp hp)
    · rintro (⟨r, hr, ho, hd, _, _⟩ | hmd)
      · have : r ∈ liveFilter c cps := (mem_liveFilter c cps r).mpr ⟨hr, ho, hd⟩
        rw [hf] at this
        exact absurd this (List.not_mem_nil r)
      · exact (mem_mdEntries c mds k w).mpr hmd
  · simp only [Except.ok.injEq] at h
    subst h
    have hcp : cp ∈ liveFilter c cps := by
      rw [hf]
      exact List.mem_cons_self _ _
    obtain ⟨hcp1, hcp2, hcp3⟩ := (mem_liveFilter c cps cp).mp hcp
    constructor
    · intro hp
      rcases List.mem_cons.mp hp with h1 | h2
      · simp only [kcpEntry, Prod.mk.injEq] at h1
        exact Or.inl ⟨cp, hcp1, hcp2, hcp3, h1.2, h1.1⟩
      · exact Or.inr ((mem_mdEntries c mds k w).mp h2)
    · rintro (⟨r, hr, ho, hd, rfl, rfl⟩ | hmd)
      · have : r ∈ liveFilter c cps := (mem_liveFilter c cps r).mpr ⟨hr, ho, hd⟩
        rw [hf] at this
        have hrcp : r = cp := by simpa using this
        subst hrcp
        exact List.mem_cons_self _ _
      · exact List.mem_cons_of_mem _ ((mem_mdEntries c mds k w).mpr hmd)
  · simp at h

theorem C6_discovery_covers_exactly_witness :
    (("foo-1", (⟨"foo-1", false⟩ : Wrapper)) ∈
        ([(appendKCPKey "foo", ⟨"foo", true⟩), ("foo-1", ⟨"foo-1", false⟩)] :
          List (String × Wrapper)) ↔
      ((∃ r ∈ [(⟨"foo", "default", some "cluster-a", false⟩ : Resource)],
          ownedBy ⟨"cluster-a", "default"⟩ r = true ∧ r.deleting = false ∧
          (⟨"foo-1", false⟩ : Wrapper) = ⟨r.name, true⟩ ∧
          "foo-1" = appendKCPKey r.name) ∨
       (∃ r ∈ [(⟨"foo-1", "default", some "cluster-a", false⟩ : Resource),
               (⟨"gone", "default", some "cluster-a", true⟩ : Resource)],
          ownedBy ⟨"cluster-a", "default"⟩ r = true ∧ r.deleting = false ∧
          (⟨"foo-1", false⟩ : Wrapper) = ⟨r.name, false⟩ ∧
          "foo-1" = r.name))) :=
  C6_discovery_covers_exactly ⟨"cluster-a", "default"⟩
    [⟨"foo", "default", some "cluster-a", false⟩]
    [⟨"foo-1", "default", some "cluster-a", false⟩,
     ⟨"gone", "default", some "cluster-a", true⟩]
    rfl "foo-1" ⟨"foo-1", false⟩

/-- C7: the control-plane key transform never returns the bare name — so a
control plane and a same-named worker pool always get two distinct keys —
and, the live worker names being unique and the reserved suffix not used by
any live worker name, every key in the discovered map is unique. -/
theorem C7_key_unique (c : ClusterIdentity) (cps mds : List Resource)
    {m : List (String × Wrapper)}
    (h : fetchMachineOwnerObjects c cps mds = .ok m)
    (hnd : ((liveFilter c mds).map Resource.name).Nodup)
    (hres : ∀ r ∈ liveFilter c mds, ∀ r' ∈ liveFilter c cps,
      r.name ≠ appendKCPKey r'.name) :
    (∀ name, appendKCPKey name ≠ name) ∧ (m.map Prod.fst).Nodup := by
  refine ⟨appendKCPKey_ne, ?_⟩
  unfold fetchMachineOwnerObjects at h
  rcases hf : liveFilter c cps with _ | ⟨cp, _ | ⟨cp2, rest⟩⟩ <;> rw [hf] at h
  · simp only [Except.ok.injEq] at h
    subst h
    rw [List.map_map]
    have hcomp : (Prod.fst ∘ mdEntry) = Resource.name := funext fun r => rfl
    rw [hcomp]
    exact hnd
  · simp only [Except.ok.injEq] at h
    subst h
    simp only [List.map_cons, List.map_map]
    have hcomp : (Prod.fst ∘ mdEntry) = Resource.name := funext fun r => rfl
    rw [hcomp]
    refine List.nodup_cons.mpr ⟨?_, hnd⟩
    intro hmem
    obtain ⟨r, hr, hname⟩ := List.mem_map.mp hmem
    exact hres r hr cp (by rw [hf]; exact List.mem_cons_self _ _) hname
  · simp at h

theorem C7_key_unique_witness :
    (∀ name, appendKCPKey name ≠ name) ∧
    (([(appendKCPKey "foo", ⟨"foo", true⟩), ("foo-1", ⟨"foo-1", false⟩),
       ("foo-2", ⟨"foo-2", false⟩)] :
        List (String × Wrapper)).map Prod.fst).Nodup :=
  C7_key_unique ⟨"cluster-a", "default"⟩
    [⟨"foo", "default", some "cluster-a", false⟩]
    [⟨"foo-1", "default", some "cluster-a", false⟩,
     ⟨"foo-2", "default", some "cluster-a", false⟩,
     ⟨"foo", "bar", some "cluster-a", false⟩]
    rfl (by decide) (by decide)

/-- C10: target discovery is namespace-scoped in addition to label-scoped:
a worker-pool resource carrying the cluster's ownership label but residing
in a different namespace is excluded — listing it changes nothing about the
discovered live map. -/
theorem C10_namespace_scoped (c : ClusterIdentity) (cps mds : List Resource)
    {r : Resource} (_hlabel : r.clusterLabel = some c.name)
    (hns : r.ns ≠ c.ns) :
    fetchMachineOwnerObjects c cps (r :: mds) =
      fetchMachineOwnerObjects c cps mds := by
  have howned : ownedBy c r = false := by
    unfold ownedBy
    have hb : (r.ns == c.ns) = false := beq_eq_false_iff_ne.mpr hns
    rw [hb]
    rfl
  have hfl : liveFilter c (r :: mds) = liveFilter c mds := by
    simp [liveFilter, List.filter_cons, howned]
  unfold fetchMachineOwnerObjects
  rw [hfl]

theorem C10_namespace_scoped_witness :
    fetchMachineOwnerObjects ⟨"cluster-a", "default"⟩
      [⟨"foo", "default", some "cluster-a", false⟩]
      [⟨"foo", "bar", some "cluster-a", false⟩,
       ⟨"md-1", "default", some "cluster-a", false⟩] =
    fetchMachineOwnerObjects ⟨"cluster-a", "default"⟩
      [⟨"foo", "default", some "cluster-a", false⟩]
      [⟨"md-1", "default", some "cluster-a", false⟩] :=
  C10_namespace_scoped ⟨"cluster-a", "default"⟩
    [⟨"foo", "default", some "cluster-a", false⟩]
    [⟨"md-1", "default", some "cluster-a", false⟩]
    rfl (by decide)

/-- C8: when `Create` for a live target returns an empty grouping ID with
no error (a deliberate skip by the service), the pass adds no association
record for that target, the target's name does not enter the availability
signal's failing list, and no error is attributed to it: if every other
sub-operation succeeds, the accumulated error list is empty. -/
theorem C8_silent_skip (svc : CMService)
    (live : List (String × Wrapper)) (records : List ClusterModule)
    (hwf : WellFormedLive live) (hndl : (liveKeys live).Nodup)
    {k : String} {w : Wrapper} (hmem : (k, w) ∈ live)
    (hc : svc.create w = ("", none))
    (hrec : ∀ m ∈ records, moduleKey m ≠ k)
    (hname : ∀ p ∈ live, p.2.name = w.name → p = (k, w)) :
    (∀ m ∈ (reconcileLive svc live records).records, moduleKey m ≠ k) ∧
    w.name ∉ (reconcileLive svc live records).signal.message ∧
    ((∀ p ∈ live, ¬ genericFail svc p.2) →
      (∀ m ∈ records, svc.removeResult m.moduleUUID = none) →
      (reconcileLive svc live records).errs = []) := by
  refine ⟨?_, ?_, ?_⟩
  · exact reconcileLive_no_record svc hwf hndl hmem hrec
      (fun id hid => by
        rw [hc] at hid
        exact (Prod.ext_iff.mp hid).1.symm)
  · intro hmsg
    obtain ⟨k', w', hk'w', hk'a, hn, s, e, hce⟩ :=
      createStep_failing_spec svc _ live w.name hmsg
    have hp := hname (k', w') hk'w' hn.symm
    have hw' : w' = w := congrArg Prod.snd hp
    rw [hw', hc] at hce
    exact absurd hce (by simp)
  · intro hgen hrm
    show (processRecords svc live records).errs ++ _ = []
    rw [processRecords_errs_nil svc live hrm, createStep_errs_nil svc _ hgen]
    rfl

/-- Test fixture: a service where creating the control-plane grouping
succeeds and the worker-pool creation is deliberately skipped. -/
def svcC8 : CMService :=
  { doesExist := fun _ _ => true
    create := fun w =>
      if w.controlPlane then ("uuid-kcp", none) else ("", none)
    removeResult := fun _ => none }

theorem C8_silent_skip_witness :
    (∀ m ∈ (reconcileLive svcC8 liveKM []).records, moduleKey m ≠ "md") ∧
    "md" ∉ (reconcileLive svcC8 liveKM []).signal.message ∧
    (reconcileLive svcC8 liveKM []).errs = [] := by
  obtain ⟨h1, h2, h3⟩ := C8_silent_skip svcC8 liveKM []
    (by
      intro p hp
      simp only [liveKM, List.mem_cons, List.not_mem_nil, or_false] at hp
      rcases hp with rfl | rfl <;> rfl)
    (by decide)
    (show ("md", wMd) ∈ liveKM by decide)
    (show svcC8.create wMd = ("", none) from rfl)
    (fun m hm => absurd hm (List.not_mem_nil m))
    (by decide)
  refine ⟨h1, h2, h3 ?_ ?_⟩
  · rintro p hp ⟨s, msg, hmsg⟩
    simp only [liveKM, List.mem_cons, List.not_mem_nil, or_false] at hp
    rcases hp with rfl | rfl <;> simp [svcC8, wKcp, wMd] at hmsg
  · intro m hm
    exact absurd hm (List.not_mem_nil m)

/-- C9: a resource already marked for deletion is invisible to the pass —
listing it (as a worker pool or as a control plane) leaves the whole
reconcile outcome, including the record list and every service call,
unchanged — and when every backing resource is deleting and the record list
is empty, Reconcile returns success with an empty record list, a satisfied
signal, and zero service calls. -/
theorem C9_deleting_resources_frame (svc : CMService) (c : ClusterIdentity)
    (cps mds : List Resource) (records : List ClusterModule)
    {r : Resource} (hdel : r.deleting = true) :
    (reconcile svc c cps (r :: mds) records = reconcile svc c cps mds records ∧
     reconcile svc c (r :: cps) mds records = reconcile svc c cps mds records) ∧
    ((∀ q ∈ cps, q.deleting = true) → (∀ q ∈ mds, q.deleting = true) →
      reconcile svc c cps mds [] = .ok ⟨[], ⟨true, []⟩, [], []⟩) := by
  have hfl : ∀ xs, liveFilter c (r :: xs) = liveFilter c xs := by
    intro xs
    simp [liveFilter, List.filter_cons, hdel]
  refine ⟨⟨?_, ?_⟩, ?_⟩
  · unfold reconcile fetchMachineOwnerObjects
    simp only [hfl mds]
  · unfold reconcile fetchMachineOwnerObjects
    simp only [hfl cps]
  · intro hcps hmds
    have hc1 : liveFilter c cps = [] := by
      apply List.filter_eq_nil_iff.mpr
      intro a ha
      simp [hcps a ha]
    have hc2 : liveFilter c mds = [] := by
      apply List.filter_eq_nil_iff.mpr
      intro a ha
      simp [hmds a ha]
    unfold reconcile fetchMachineOwnerObjects
    simp only [hc1, hc2]
    rfl

theorem C9_deleting_resources_frame_witness :
    (reconcile svcRm ⟨"cluster-a", "default"⟩
        [⟨"kcp-res", "default", some "cluster-a", true⟩]
        (⟨"md-gone", "default", some "cluster-a", true⟩ ::
          [⟨"md-res", "default", some "cluster-a", true⟩]) [] =
      reconcile svcRm ⟨"cluster-a", "default"⟩
        [⟨"kcp-res", "default", some "cluster-a", true⟩]
        [⟨"md-res", "default", some "cluster-a", true⟩] [] ∧
     reconcile svcRm ⟨"cluster-a", "default"⟩
        (⟨"md-gone", "default", some "cluster-a", true⟩ ::
          [⟨"kcp-res", "default", some "cluster-a", true⟩])
        [⟨"md-res", "default", some "cluster-a", true⟩] [] =
      reconcile svcRm ⟨"cluster-a", "default"⟩
        [⟨"kcp-res", "default", some "cluster-a", true⟩]
        [⟨"md-res", "default", some "cluster-a", true⟩] []) ∧
    reconcile svcRm ⟨"cluster-a", "default"⟩
        [⟨"kcp-res", "default", some "cluster-a", true⟩]
        [⟨"md-res", "default", some "cluster-a", true⟩] [] =
      .ok ⟨[], ⟨true, []⟩, [], []⟩ := by
  obtain ⟨hfr, hnil⟩ := C9_deleting_resources_frame svcRm ⟨"cluster-a", "default"⟩
    [⟨"kcp-res", "default", some "cluster-a", true⟩]
    [⟨"md-res", "default", some "cluster-a", true⟩] []
    (show (⟨"md-gone", "default", some "cluster-a", true⟩ : Resource).deleting = true
      from rfl)
  exact ⟨hfr, hnil (by decide) (by decide)⟩

/-! ## Idempotence (C5) -/

/-- Test fixture: a service that deliberately skips every creation. -/
def svcSkip : CMService :=
  { doesExist := fun _ _ => true
    create := fun _ => ("", none)
    removeResult := fun _ => none }

/-- Test fixture: a single live worker-pool target named md. -/
def liveMd : List (String × Wrapper) := [("md", ⟨"md", false⟩)]

/-- C5 counterexample: with one live target whose creation is deliberately
skipped, the first pass records nothing — so nothing changes between the
passes and the recorded-grouping/Exists premise is vacuous — yet the second
pass performs a Create call for the target again: the claimed "zero Create
calls on the second pass" is false. -/
theorem C5_idempotence_counterexample :
    (reconcileLive svcSkip liveMd []).records = [] ∧
    (reconcileLive svcSkip liveMd
        (reconcileLive svcSkip liveMd []).records).records =
      (reconcileLive svcSkip liveMd []).records ∧
    (reconcileLive svcSkip liveMd
        (reconcileLive svcSkip liveMd []).records).signal =
      (reconcileLive svcSkip liveMd []).signal ∧
    SvcCall.createCall ⟨"md", false⟩ ∈
      (reconcileLive svcSkip liveMd
        (reconcileLive svcSkip liveMd []).records).calls := by
  refine ⟨?_, ?_, ?_, ?_⟩ <;> decide

/-- C5 (amended): with no intervening external change — live targets
unchanged, every first-pass record's grouping still reported present by
`Exists` — and the first pass's removals all having succeeded, a second
pass yields the identical record list, availability signal, and
accumulated error list, and performs no Remove call; it performs no Create
call either provided every live target holds a record after the first pass
(a live target left without a record — skipped, incompatible, or failed —
has its creation re-attempted on the second pass). -/
theorem C5_idempotence (svc : CMService) (live : List (String × Wrapper))
    (records : List ClusterModule)
    (hwf : WellFormedLive live) (hndl : (liveKeys live).Nodup)
    (hrm : ∀ m ∈ records, svc.removeResult m.moduleUUID = none)
    (hex : ∀ m ∈ (reconcileLive svc live records).records, ∀ w,
      lookupLive live (moduleKey m) = some w →
      svc.doesExist w m.moduleUUID = true) :
    (reconcileLive svc live (reconcileLive svc live records).records).records =
      (reconcileLive svc live records).records ∧
    (reconcileLive svc live (reconcileLive svc live records).records).signal =
      (reconcileLive svc live records).signal ∧
    (reconcileLive svc live (reconcileLive svc live records).records).errs =
      (reconcileLive svc live records).errs ∧
    (∀ call ∈ (reconcileLive svc live
        (reconcileLive svc live records).records).calls,
      ∀ id, call ≠ SvcCall.removeCall id) ∧
    ((∀ p ∈ live,
        p.1 ∈ (reconcileLive svc live records).records.map moduleKey) →
      ∀ call ∈ (reconcileLive svc live
        (reconcileLive svc live records).records).calls,
      ∀ w, call ≠ SvcCall.createCall w) := by
  have hkeys1 : ∀ m ∈ (reconcileLive svc live records).records,
      ∃ w, lookupLive live (moduleKey m) = some w := by
    intro m hm
    rw [reconcileLive_records_eq] at hm
    rcases List.mem_append.mp hm with h1 | h2
    · rcases (processRecords_retained_spec svc live records m h1).2 with
        ⟨w, hw, _⟩ | ⟨_, e, he⟩
      · exact ⟨w, hw⟩
      · rw [hrm m (processRecords_retained_spec svc live records m h1).1] at he
        exact Option.noConfusion he
    · obtain ⟨k', w', id, hk'w', _, _, _, rfl⟩ :=
        createStep_created_spec svc _ live m h2
      rw [moduleKey_mkModule, ← hwf (k', w') hk'w']
      exact lookupLive_isSome_of_mem hk'w'
  have hall : ∀ m ∈ (reconcileLive svc live records).records,
      ∃ w, lookupLive live (moduleKey m) = some w ∧
        svc.doesExist w m.moduleUUID = true := by
    intro m hm
    obtain ⟨w, hw⟩ := hkeys1 m hm
    exact ⟨w, hw, hex m hm w hw⟩
  obtain ⟨hret2, hassoc2, herr2, hcalls2⟩ := processRecords_keep svc live hall
  have hsub : ∀ p ∈ live,
      p.1 ∈ (processRecords svc live records).associated →
      p.1 ∈ (reconcileLive svc live records).records.map moduleKey := by
    intro p hp hpa
    obtain ⟨m, hmret, hmk⟩ :=
      processRecords_assoc_retained svc live records p.1 hpa
    rw [reconcileLive_records_eq, ← hmk]
    exact List.mem_map_of_mem moduleKey (List.mem_append_left _ hmret)
  have hnew : ∀ p ∈ live,
      p.1 ∈ (reconcileLive svc live records).records.map moduleKey →
      p.1 ∉ (processRecords svc live records).associated →
      ∃ id, svc.create p.2 = (id, none) ∧ id ≠ "" := by
    intro p hp hpm hpa
    obtain ⟨m, hm, hmk⟩ := List.mem_map.mp hpm
    rw [reconcileLive_records_eq] at hm
    rcases List.mem_append.mp hm with h1 | h2
    · obtain ⟨hmrec, hcases⟩ := processRecords_retained_spec svc live records m h1
      rcases hcases with ⟨w', hw', _⟩ | ⟨_, e, he⟩
      · exact absurd (hmk ▸ processRecords_retained_assoc svc live records m h1 w' hw') hpa
      · rw [hrm m hmrec] at he
        exact Option.noConfusion he
    · obtain ⟨k', w', id, hk'w', hk'a, hcw', hid, rfl⟩ :=
        createStep_created_spec svc _ live m h2
      have hwf' : k' = wrapperKey w' := hwf (k', w') hk'w'
      have hk'p : k' = p.1 :=
        hwf'.trans ((moduleKey_mkModule w' id).symm.trans hmk)
      have hww : w' = p.2 := by
        have e1 := lookupLive_of_mem_nodup hndl hk'w'
        have e2 := lookupLive_of_mem_nodup hndl (show (p.1, p.2) ∈ live from hp)
        rw [hk'p] at e1
        rw [e1] at e2
        exact Option.some.inj e2
      exact ⟨id, by rw [← hww]; exact hcw', hid⟩
  have hfail : ∀ p ∈ live,
      p.1 ∉ (reconcileLive svc live records).records.map moduleKey →
      ∀ id, svc.create p.2 = (id, none) → id = "" := by
    intro p hp hpm id hc
    by_contra hid
    have hpa : p.1 ∉ (processRecords svc live records).associated :=
      fun h => hpm (hsub p hp h)
    have hcr := createStep_created_of svc _
      (show (p.1, p.2) ∈ live from hp) hpa hc hid
    apply hpm
    rw [reconcileLive_records_eq]
    have hmm := List.mem_map_of_mem moduleKey (List.mem_append_right
      ((processRecords svc live records).retained) hcr)
    rw [moduleKey_mkModule] at hmm
    rw [hwf p hp]
    exact hmm
  obtain ⟨hidemF, hidemC, hidemE⟩ := createStep_idem svc hsub hnew hfail
  refine ⟨?_, ?_, ?_, ?_, ?_⟩
  · rw [reconcileLive_records_eq, hret2, hassoc2, hidemC, List.append_nil]
  · have hfe : (createStep svc (processRecords svc live
        ((reconcileLive svc live records).records)).associated live).failing =
        (createStep svc (processRecords svc live records).associated live).failing := by
      rw [hassoc2]
      exact hidemF
    exact congrArg (fun f => Signal.mk f.isEmpty f) hfe
  · show (processRecords svc live ((reconcileLive svc live records).records)).errs
        ++ _ = _
    rw [herr2, hassoc2, hidemE, List.nil_append]
    show _ = (processRecords svc live records).errs ++ _
    rw [processRecords_errs_nil svc live hrm, List.nil_append]
  · intro call hcall id hcid
    rcases List.mem_append.mp hcall with h1 | h2
    · obtain ⟨w', id', he⟩ := hcalls2 _ h1
      rw [hcid] at he
      exact SvcCall.noConfusion he
    · obtain ⟨w', he⟩ := createStep_calls_spec svc _ live _ h2
      rw [hcid] at he
      exact SvcCall.noConfusion he
  · intro hallrec call hcall w hcid
    have hs3 : createStep svc (processRecords svc live
        ((reconcileLive svc live records).records)).associated live =
        ⟨[], [], [], []⟩ := by
      rw [hassoc2]
      exact createStep_skip_all svc _ hallrec
    rcases List.mem_append.mp hcall with h1 | h2
    · obtain ⟨w', id', he⟩ := hcalls2 _ h1
      rw [hcid] at he
      exact SvcCall.noConfusion he
    · rw [hs3] at h2
      exact absurd h2 (List.not_mem_nil _)

theorem C5_idempotence_witness :
    (reconcileLive svcRm liveKM
        (reconcileLive svcRm liveKM [recKcp, recMd]).records).records =
      (reconcileLive svcRm liveKM [recKcp, recMd]).records ∧
    (reconcileLive svcRm liveKM
        (reconcileLive svcRm liveKM [recKcp, recMd]).records).signal =
      (reconcileLive svcRm liveKM [recKcp, recMd]).signal ∧
    (reconcileLive svcRm liveKM
        (reconcileLive svcRm liveKM [recKcp, recMd]).records).errs =
      (reconcileLive svcRm liveKM [recKcp, recMd]).errs ∧
    (∀ call ∈ (reconcileLive svcRm liveKM
        (reconcileLive svcRm liveKM [recKcp, recMd]).records).calls,
      ∀ id, call ≠ SvcCall.removeCall id) ∧
    (∀ call ∈ (reconcileLive svcRm liveKM
        (reconcileLive svcRm liveKM [recKcp, recMd]).records).calls,
      ∀ w, call ≠ SvcCall.createCall w) := by
  obtain ⟨h1, h2, h3, h4, h5⟩ := C5_idempotence svcRm liveKM [recKcp, recMd]
    (by
      intro p hp
      simp only [liveKM, List.mem_cons, List.not_mem_nil, or_false] at hp
      rcases hp with rfl | rfl <;> rfl)
    (by decide)
    (fun m _ => rfl)
    (fun m _ w _ => rfl)
  exact ⟨h1, h2, h3, h4, h5 (by decide)⟩

end ClusterModules
